import Mathlib

/-!
Verification development for the padre_meddea level-0 packet reading module
(`padre_meddea/io/file_tools.py`).

Byte streams are modelled as `List Nat` with every read masked to one byte.
The CCSDS demultiplexer (`ccsdspy.utils.split_by_apid`) and the fixed/variable
length decoders (`ccsdspy.FixedLength.load` / `ccsdspy.VariableLength.load`)
are collaborators of the module that are not part of its own sources; they are
modelled from the specification of the demultiplexing and decoding engine.
Everything else (`parse_l0_file`, `summarize_file`, `read_l0_file`,
`read_file`, and the three `packet_definition_*` schema builders) is a direct
translation of the Python source.
-/

namespace PadreMeddea

/-- Byte `i` of a stream, out-of-range reads give 0, values masked to 8 bits. -/
def byteAt (s : List Nat) (i : Nat) : Nat := s.getD i 0 % 256

/-- Modelled from the spec: the CCSDS primary header is 6 bytes wide. -/
def headerBytes : Nat := 6

/-- Modelled from the spec: the 11-bit APID from bytes 0-1 of a primary header. -/
def apidOf (s : List Nat) : Nat := byteAt s 0 % 8 * 256 + byteAt s 1

/-- Modelled from the spec: the 16-bit declared data length from bytes 4-5 of a
primary header (encoded as payload byte count minus one). -/
def declaredLength (s : List Nat) : Nat := byteAt s 4 * 256 + byteAt s 5

/-- Modelled from the spec: total packet byte count,
`header_width + declared_length + 1`. -/
def packetTotal (s : List Nat) : Nat := headerBytes + declaredLength s + 1

/-- Modelled from the spec: one demultiplexer step per fuel unit.  Reads a
primary header at the current offset, extracts the packet byte range (truncated
at end of stream), and recurses on the remainder.  Fewer than `headerBytes`
residual bytes are returned as the discarded remainder.  The fuel starts at the
stream length, and every step consumes at least 7 bytes, so fuel never runs out
with 6 or more bytes remaining. -/
def demuxGo : Nat → List Nat → List (Nat × List Nat) × List Nat
  | 0, s => ([], s)
  | fuel + 1, s =>
    if headerBytes ≤ s.length then
      let t := packetTotal s
      let rest := demuxGo fuel (s.drop t)
      ((apidOf s, s.take t) :: rest.1, rest.2)
    else ([], s)

/-- Modelled from the spec: `ccsdspy.utils.split_by_apid` (absent from the
sources), kept as the ordered list of (apid, byte range) pairs plus the
discarded trailing remainder. -/
def demuxStream (s : List Nat) : List (Nat × List Nat) × List Nat :=
  demuxGo s.length s

/-- The APIDs present in the demultiplexer output, in stream order. -/
def demuxApids (s : List Nat) : List Nat := (demuxStream s).1.map Prod.fst

/-- Modelled from the spec: one APID's ordered byte ranges from the
demultiplexer output mapping. -/
def split_by_apid (s : List Nat) (apid : Nat) : List (List Nat) :=
  ((demuxStream s).1.filter (fun pr => pr.1 == apid)).map Prod.snd

/-- Field shape of a schema entry: scalar, fixed array, or the trailing
variable-length expand array. -/
inductive FieldShape
  | scalar
  | fixedArray (n : Nat)
  | expand
deriving DecidableEq

/-- A schema entry: `ccsdspy.PacketField` / `ccsdspy.PacketArray`. -/
structure PacketField where
  name : String
  data_type : String
  bit_length : Nat
  shape : FieldShape
deriving DecidableEq

/-- `packet_definition_ph` from the source: photon packet schema. -/
def packet_definition_ph : List PacketField :=
  [⟨"TIME", "uint", 4 * 16, .scalar⟩,
   ⟨"INT_TIME", "uint", 16, .scalar⟩,
   ⟨"FLAGS", "uint", 16, .scalar⟩,
   ⟨"CHECKSUM", "uint", 16, .scalar⟩,
   ⟨"PIXEL_DATA", "uint", 16, .expand⟩]

/-- `packet_definition_hk` from the source: housekeeping packet schema. -/
def packet_definition_hk : List PacketField :=
  [⟨"TIME", "uint", 32, .scalar⟩,
   ⟨"HOUSEKEEPING", "uint", 16, .fixedArray 8⟩,
   ⟨"CHECKSUM", "uint", 16, .scalar⟩]

/-- One iteration of the histogram schema loop body from the source. -/
def histGroupFields (i : Nat) : List PacketField :=
  [⟨"HISTOGRAM_SYNC" ++ toString i, "uint", 8, .scalar⟩,
   ⟨"HISTOGRAM_DETNUM" ++ toString i, "uint", 3, .scalar⟩,
   ⟨"HISTOGRAM_PIXNUM" ++ toString i, "uint", 5, .scalar⟩,
   ⟨"HISTOGRAM_DATA" ++ toString i, "uint", 16, .fixedArray 512⟩]

/-- `packet_definition_hist` from the source.  `padre_meddea.NUM_PIXELS` and
`padre_meddea.NUM_DETECTORS` are configuration constants absent from the
sources; modelled from the spec as parameters supplied by the mission
configuration collaborator. -/
def packet_definition_hist (numPixels numDetectors : Nat) : List PacketField :=
  [⟨"START_TIME", "uint", 4 * 16, .scalar⟩,
   ⟨"END_TIME", "uint", 4 * 16, .scalar⟩]
  ++ (List.range (numPixels * numDetectors)).flatMap histGroupFields
  ++ [⟨"CHECKSUM", "uint", 16, .scalar⟩]

/-- A decoded field value: one unsigned integer or an ordered sequence. -/
inductive FieldValue
  | scalar (v : Nat)
  | array (vs : List Nat)
deriving DecidableEq

/-- A Decoded Record: an ordered mapping from field name to value. -/
abbrev Record := List (String × FieldValue)

/-- Lookup of a field value by name in a Decoded Record. -/
def getField (rec : Record) (nm : String) : Option FieldValue :=
  (rec.find? (fun pr => pr.1 == nm)).map Prod.snd

/-- The big-endian integer carried by a byte range. -/
def bytesToNat (r : List Nat) : Nat := r.foldl (fun acc b => acc * 256 + b % 256) 0

/-- Modelled from the spec: read `width` bits starting at bit offset `pos`
(most-significant-bit first) from a byte range. -/
def readBits (r : List Nat) (pos width : Nat) : Nat :=
  bytesToNat r >>> (8 * r.length - (pos + width)) % 2 ^ width

/-- Bit width contributed by one schema entry (expand entries contribute 0;
their width is per-packet). -/
def schemaFieldBits (f : PacketField) : Nat :=
  match f.shape with
  | .scalar => f.bit_length
  | .fixedArray k => k * f.bit_length
  | .expand => 0

/-- Total fixed bit width of a schema. -/
def schemaBits (fs : List PacketField) : Nat := (fs.map schemaFieldBits).sum

/-- Modelled from the spec: decode one schema entry at bit offset `pos`. -/
def decodeField (r : List Nat) (pos : Nat) (f : PacketField) : FieldValue :=
  match f.shape with
  | .scalar => .scalar (readBits r pos f.bit_length)
  | .fixedArray k =>
    .array ((List.range k).map (fun j => readBits r (pos + j * f.bit_length) f.bit_length))
  | .expand => .array []

/-- Modelled from the spec: walk the schema left to right, consuming
`bit_length` bits per field. -/
def decodeFieldsAux : List PacketField → Nat → List Nat → Record
  | [], _, _ => []
  | f :: fs, pos, r => (f.name, decodeField r pos f) :: decodeFieldsAux fs (pos + schemaFieldBits f) r

/-- Modelled from the spec: the decoded primary header fields, prepended to a
record when header inclusion is requested. -/
def headerRecord (r : List Nat) : Record :=
  [(("CCSDS_VERSION_NUMBER"), .scalar (readBits r 0 3)),
   (("CCSDS_PACKET_TYPE"), .scalar (readBits r 3 1)),
   (("CCSDS_SECONDARY_FLAG"), .scalar (readBits r 4 1)),
   (("CCSDS_APID"), .scalar (readBits r 5 11)),
   (("CCSDS_SEQUENCE_FLAG"), .scalar (readBits r 16 2)),
   (("CCSDS_SEQUENCE_COUNT"), .scalar (readBits r 18 14)),
   (("CCSDS_PACKET_LENGTH"), .scalar (readBits r 32 16))]

/-- A per-packet decode failure. -/
inductive DecodeError
  | malformedPacket
deriving DecidableEq

deriving instance DecidableEq for Except

/-- Modelled from the spec: fixed-length decode of a single byte range.  The
range must have exactly the schema's total bit width (primary header included)
and its declared length field must agree; otherwise this one packet fails with
a malformed-packet error. -/
def decode_fixed_one (includeHeader : Bool) (schema : List PacketField) (r : List Nat) :
    Except DecodeError Record :=
  if 8 * r.length = 48 + schemaBits schema ∧ 8 * packetTotal r = 48 + schemaBits schema then
    .ok ((if includeHeader then headerRecord r else []) ++ decodeFieldsAux schema 48 r)
  else .error .malformedPacket

/-- Modelled from the spec: `ccsdspy.FixedLength.load`.  One record per
well-formed range, in order; malformed ranges are excluded and reported. -/
def decode_fixed (includeHeader : Bool) (schema : List PacketField) :
    List (List Nat) → List Record × List DecodeError
  | [] => ([], [])
  | r :: rs =>
    let rest := decode_fixed includeHeader schema rs
    match decode_fixed_one includeHeader schema r with
    | .ok rec => (rec :: rest.1, rest.2)
    | .error e => (rest.1, e :: rest.2)

/-- Modelled from the spec: variable-length decode of a single byte range.
The leading fields are decoded as in the fixed case; the expand element count
is `(range_total_bit_length - consumed_bit_length) / expand_element_bit_width`,
and the packet fails with a malformed-packet error when that division is not
exact or the count would be negative. -/
def decode_variable_one (includeHeader : Bool) (schema : List PacketField) (r : List Nat) :
    Except DecodeError Record :=
  match schema.getLast? with
  | Option.none => .error .malformedPacket
  | Option.some ex =>
    let leading := schema.dropLast
    let consumed := 48 + schemaBits leading
    if consumed ≤ 8 * r.length ∧ (8 * r.length - consumed) % ex.bit_length = 0 then
      let cnt := (8 * r.length - consumed) / ex.bit_length
      .ok ((if includeHeader then headerRecord r else []) ++ decodeFieldsAux leading 48 r
        ++ [(ex.name, .array ((List.range cnt).map
              (fun j => readBits r (consumed + j * ex.bit_length) ex.bit_length)))])
    else .error .malformedPacket

/-- Modelled from the spec: `ccsdspy.VariableLength.load`. -/
def decode_variable (includeHeader : Bool) (schema : List PacketField) :
    List (List Nat) → List Record × List DecodeError
  | [] => ([], [])
  | r :: rs =>
    let rest := decode_variable includeHeader schema rs
    match decode_variable_one includeHeader schema r with
    | .ok rec => (rec :: rest.1, rest.2)
    | .error e => (rest.1, e :: rest.2)

def APID_HIST : Nat := 0xA2
def APID_PHOTON : Nat := 0xA0
def APID_HK : Nat := 0xA3
def APID_CMD : Nat := 0xA5

/-- `APID_DICT` from the source. -/
def APID_DICT : List (Nat × String) :=
  [(APID_HIST, ("histogram")),
   (APID_PHOTON, ("photon")),
   (APID_HK, ("housekeeping")),
   (APID_CMD, ("command response"))]

/-- The value of `parse_l0_file`: the per-APID result mapping in insertion
order, plus the side channel of reported per-packet decode failures. -/
structure ParseOutput where
  result : List (Nat × List Record)
  reports : List (Nat × DecodeError)
deriving DecidableEq

/-- `parse_l0_file` from the source: demultiplex once, then decode the
histogram APID with the fixed-length decoder and the photon APID with the
variable-length decoder; every other APID is ignored. -/
def parse_l0_file (numPixels numDetectors : Nat) (include_ccsds_headers : Bool)
    (stream : List Nat) : ParseOutput :=
  let apids := demuxApids stream
  let histPart : ParseOutput :=
    if APID_HIST ∈ apids then
      let dec := decode_fixed include_ccsds_headers
        (packet_definition_hist numPixels numDetectors) (split_by_apid stream APID_HIST)
      ⟨[(APID_HIST, dec.1)], dec.2.map (fun e => (APID_HIST, e))⟩
    else ⟨[], []⟩
  let photonPart : ParseOutput :=
    if APID_PHOTON ∈ apids then
      let dec := decode_variable include_ccsds_headers
        packet_definition_ph (split_by_apid stream APID_PHOTON)
      ⟨[(APID_PHOTON, dec.1)], dec.2.map (fun e => (APID_PHOTON, e))⟩
    else ⟨[], []⟩
  ⟨histPart.result ++ photonPart.result, histPart.reports ++ photonPart.reports⟩

/-- A Python runtime exception raised by the source's reader helpers. -/
inductive PyErr
  | keyError
  | typeError
deriving DecidableEq

/-- A Python value returned by the source's reader helpers: either `None` or
some decoded per-APID data a reader could have returned instead. -/
inductive PyValue
  | pyNone
  | pyData (d : List (Nat × List Record))
deriving DecidableEq

/-- Dictionary lookup `data[apid]` over the parse result; a missing key is a
`KeyError`. -/
def lookupApid (data : List (Nat × List Record)) (apid : Nat) : Option (List Record) :=
  (data.find? (fun pr => pr.1 == apid)).map Prod.snd

/-- `int(this_packet["PIXEL_DATA"] / 3)` from the source: a missing field is a
`KeyError`; `int()` of an array succeeds only on a length-1 array, otherwise a
`TypeError`. -/
def intOfPixelData (rec : Record) : Except PyErr Nat :=
  match getField rec ("PIXEL_DATA") with
  | Option.none => .error .keyError
  | Option.some (.scalar v) => .ok (v / 3)
  | Option.some (.array vs) =>
    match vs with
    | [v] => .ok (v / 3)
    | _ => .error .typeError

/-- The `number_of_hits` accumulation loop shared by `summarize_file` and
`read_l0_file` in the source. -/
def photonHitsLoop (recs : List Record) : Except PyErr Nat :=
  recs.foldlM (fun acc rec => (intOfPixelData rec).map (fun v => acc + v)) 0

/-- The `for this_apid in data.keys()` loop of `summarize_file`: every
recognized APID triggers an unconditional iteration over `data[APID_PHOTON]`. -/
def summarizeLoop (data : List (Nat × List Record)) :
    List (Nat × List Record) → Except PyErr Unit
  | [] => .ok ()
  | (apid, _) :: rest =>
    if apid ∈ APID_DICT.map Prod.fst then
      match lookupApid data APID_PHOTON with
      | Option.none => .error .keyError
      | Option.some recs =>
        match photonHitsLoop recs with
        | .error e => .error e
        | .ok _ => summarizeLoop data rest
    else summarizeLoop data rest

/-- The final statement of `summarize_file` calls `len()` with no arguments,
which always raises a `TypeError`. -/
def lenNoArgs : Except PyErr Nat := .error .typeError

/-- `summarize_file` from the source. -/
def summarize_file (numPixels numDetectors : Nat) (stream : List Nat) : Except PyErr Unit :=
  let data := (parse_l0_file numPixels numDetectors true stream).result
  match summarizeLoop data data with
  | .error e => .error e
  | .ok _ =>
    match lenNoArgs with
    | .error e => .error e
    | .ok _ => .ok ()

/-- `read_l0_file` from the source: indexes the parse result by the photon
APID unconditionally, accumulates `number_of_hits`, builds zero arrays, and
falls off the end of the function body (returning `None`). -/
def read_l0_file (numPixels numDetectors : Nat) (stream : List Nat) : Except PyErr PyValue :=
  let data := (parse_l0_file numPixels numDetectors true stream).result
  match lookupApid data APID_PHOTON with
  | Option.none => .error .keyError
  | Option.some recs =>
    match photonHitsLoop recs with
    | .error e => .error e
    | .ok _ => .ok .pyNone

/-- `read_file` from the source: delegates to `read_l0_file`. -/
def read_file (numPixels numDetectors : Nat) (stream : List Nat) : Except PyErr PyValue :=
  read_l0_file numPixels numDetectors stream

/-! ## Demultiplexer lemmas -/

theorem packetTotal_ge (s : List Nat) : 7 ≤ packetTotal s := by
  simp only [packetTotal, headerBytes]
  omega

theorem demuxGo_partition (fuel : Nat) :
    ∀ s : List Nat, ((demuxGo fuel s).1.map Prod.snd).flatten ++ (demuxGo fuel s).2 = s := by
  induction fuel with
  | zero => intro s; simp [demuxGo]
  | succ fuel ih =>
    intro s
    by_cases h : headerBytes ≤ s.length
    · simp only [demuxGo, if_pos h, List.map_cons, List.flatten_cons, List.append_assoc, ih]
      exact List.take_append_drop _ s
    · simp [demuxGo, if_neg h]

theorem demuxGo_residual (fuel : Nat) :
    ∀ s : List Nat, s.length ≤ fuel → (demuxGo fuel s).2.length < headerBytes := by
  induction fuel with
  | zero =>
    intro s hs
    simp only [demuxGo]
    simp only [headerBytes]
    omega
  | succ fuel ih =>
    intro s hs
    by_cases h : headerBytes ≤ s.length
    · simp only [demuxGo, if_pos h]
      refine ih _ ?_
      have h7 := packetTotal_ge s
      simp only [List.length_drop]
      omega
    · simp only [demuxGo, if_neg h]
      omega

theorem demuxGo_fuel (fuel fuel' : Nat) :
    ∀ s : List Nat, s.length ≤ fuel → s.length ≤ fuel' → demuxGo fuel s = demuxGo fuel' s := by
  induction fuel generalizing fuel' with
  | zero =>
    intro s hs _
    have : s = [] := List.length_eq_zero.mp (Nat.le_zero.mp hs)
    subst this
    cases fuel' with
    | zero => rfl
    | succ fuel' =>
      simp [demuxGo, headerBytes]
  | succ fuel ih =>
    intro s hs hs'
    cases fuel' with
    | zero =>
      have : s = [] := List.length_eq_zero.mp (Nat.le_zero.mp hs')
      subst this
      simp [demuxGo, headerBytes]
    | succ fuel' =>
      by_cases h : headerBytes ≤ s.length
      · have h7 := packetTotal_ge s
        have hlen : (s.drop (packetTotal s)).length ≤ fuel := by
          simp only [List.length_drop]; omega
        have hlen' : (s.drop (packetTotal s)).length ≤ fuel' := by
          simp only [List.length_drop]; omega
        simp only [demuxGo, if_pos h, ih fuel' _ hlen hlen']
      · simp only [demuxGo, if_neg h]

theorem demuxStream_step (s : List Nat) (h : headerBytes ≤ s.length) :
    demuxStream s =
      ((apidOf s, s.take (packetTotal s)) :: (demuxStream (s.drop (packetTotal s))).1,
        (demuxStream (s.drop (packetTotal s))).2) := by
  have h1 : s.length ≤ s.length := Nat.le_refl _
  obtain ⟨fuel, hfuel⟩ : ∃ fuel, s.length = fuel + 1 := by
    have h6 : (headerBytes : Nat) = 6 := rfl
    cases hn : s.length with
    | zero => rw [hn] at h; rw [h6] at h; omega
    | succ k => exact ⟨k, rfl⟩
  have hstep : demuxStream s = demuxGo (fuel + 1) s := by
    simp only [demuxStream, hfuel]
  rw [hstep]
  simp only [demuxGo, if_pos h]
  have h7 := packetTotal_ge s
  have hdl : (s.drop (packetTotal s)).length ≤ fuel := by
    simp only [List.length_drop]; omega
  rw [demuxGo_fuel fuel _ _ hdl (Nat.le_refl _)]
  rfl

theorem demuxStream_nil : demuxStream [] = ([], []) := rfl

/-- C5: demultiplexing is a partition of the input stream.  Concatenating the
extracted byte ranges in stream order, followed by the discarded remainder
(which is always shorter than one primary header), reconstructs the input
byte-for-byte. -/
theorem demux_partition (s : List Nat) :
    ((demuxStream s).1.map Prod.snd).flatten ++ (demuxStream s).2 = s ∧
      (demuxStream s).2.length < headerBytes :=
  ⟨demuxGo_partition s.length s, demuxGo_residual s.length s (Nat.le_refl _)⟩

/-! ## Header-field lemmas on appended streams -/

theorem byteAt_append {s1 : List Nat} (s2 : List Nat) {i : Nat} (h : i < s1.length) :
    byteAt (s1 ++ s2) i = byteAt s1 i := by
  unfold byteAt
  rw [List.getD_append _ _ _ _ h]

theorem apidOf_append {s1 : List Nat} (s2 : List Nat) (h : headerBytes ≤ s1.length) :
    apidOf (s1 ++ s2) = apidOf s1 := by
  have h6 : (headerBytes : Nat) = 6 := rfl
  rw [h6] at h
  rw [apidOf, apidOf, byteAt_append s2 (by omega), byteAt_append s2 (by omega)]

theorem declaredLength_append {s1 : List Nat} (s2 : List Nat) (h : headerBytes ≤ s1.length) :
    declaredLength (s1 ++ s2) = declaredLength s1 := by
  have h6 : (headerBytes : Nat) = 6 := rfl
  rw [h6] at h
  rw [declaredLength, declaredLength, byteAt_append s2 (by omega), byteAt_append s2 (by omega)]

theorem packetTotal_append {s1 : List Nat} (s2 : List Nat) (h : headerBytes ≤ s1.length) :
    packetTotal (s1 ++ s2) = packetTotal s1 := by
  rw [packetTotal, packetTotal, declaredLength_append s2 h]

/-- C1 (amended): per-packet failure isolation for the fixed-framing histogram
APID.  A stream of one well-formed histogram packet followed by a second
histogram-APID packet whose declared length field exceeds the remaining stream
length parses to exactly the first packet's record under `APID_HIST`, with one
reported malformed-packet error for the second, and the parse returns normally. -/
theorem parse_isolates_malformed_hist (numPixels numDetectors : Nat) (incl : Bool)
    (pkt1 pkt2 : List Nat)
    (h1a : apidOf pkt1 = APID_HIST)
    (h1len : pkt1.length = packetTotal pkt1)
    (h1W : 8 * pkt1.length = 48 + schemaBits (packet_definition_hist numPixels numDetectors))
    (h2a : apidOf pkt2 = APID_HIST)
    (h2hdr : headerBytes ≤ pkt2.length)
    (h2over : pkt2.length < packetTotal pkt2) :
    ∃ rec, decode_fixed_one incl (packet_definition_hist numPixels numDetectors) pkt1 = .ok rec ∧
      parse_l0_file numPixels numDetectors incl (pkt1 ++ pkt2) =
        ⟨[(APID_HIST, [rec])], [(APID_HIST, .malformedPacket)]⟩ := by
  have h1hdr : headerBytes ≤ pkt1.length := by
    have := packetTotal_ge pkt1
    have h6 : (headerBytes : Nat) = 6 := rfl
    omega
  have h12 : headerBytes ≤ (pkt1 ++ pkt2).length := by
    rw [List.length_append]
    omega
  have hd2 : demuxStream pkt2 = ([(APID_HIST, pkt2)], []) := by
    rw [demuxStream_step pkt2 h2hdr, List.take_of_length_le (Nat.le_of_lt h2over),
      List.drop_eq_nil_of_le (Nat.le_of_lt h2over), demuxStream_nil, h2a]
  have hd : demuxStream (pkt1 ++ pkt2) = ([(APID_HIST, pkt1), (APID_HIST, pkt2)], []) := by
    rw [demuxStream_step _ h12, packetTotal_append pkt2 h1hdr, apidOf_append pkt2 h1hdr,
      List.take_left' h1len, List.drop_left' h1len, hd2, h1a]
  have hdec1 : decode_fixed_one incl (packet_definition_hist numPixels numDetectors) pkt1 =
      .ok ((if incl then headerRecord pkt1 else [])
        ++ decodeFieldsAux (packet_definition_hist numPixels numDetectors) 48 pkt1) := by
    rw [decode_fixed_one, if_pos]
    exact ⟨h1W, by rw [← h1len]; exact h1W⟩
  have hdec2 : decode_fixed_one incl (packet_definition_hist numPixels numDetectors) pkt2 =
      .error .malformedPacket := by
    rw [decode_fixed_one, if_neg]
    rintro ⟨hA, hB⟩
    omega
  refine ⟨_, hdec1, ?_⟩
  have happ : demuxApids (pkt1 ++ pkt2) = [APID_HIST, APID_HIST] := by
    simp [demuxApids, hd]
  have hsplit : split_by_apid (pkt1 ++ pkt2) APID_HIST = [pkt1, pkt2] := by
    simp [split_by_apid, hd]
  rw [parse_l0_file, happ, hsplit]
  rw [if_pos (by simp), if_neg (by decide)]
  simp [decode_fixed, hdec1, hdec2]

/-- A well-formed histogram packet for a 1-pixel, 1-detector configuration:
8400 bits total, declared length field 1043. -/
def histPacketA : List Nat := [0, 0xA2, 0, 0, 4, 0x13] ++ List.replicate 1044 0

/-- A histogram-APID packet whose declared length field (2000) exceeds its
actual 26 bytes. -/
def histPacketOver : List Nat := [0, 0xA2, 0, 0, 7, 0xD0] ++ List.replicate 20 0

set_option maxRecDepth 100000 in
/-- Witness for C1 (amended): the hypotheses of
`parse_isolates_malformed_hist` hold at a concrete pair of packets. -/
theorem parse_isolates_malformed_hist_witness :
    (apidOf histPacketA = APID_HIST ∧ histPacketA.length = packetTotal histPacketA ∧
      8 * histPacketA.length = 48 + schemaBits (packet_definition_hist 1 1) ∧
      apidOf histPacketOver = APID_HIST ∧ headerBytes ≤ histPacketOver.length ∧
      histPacketOver.length < packetTotal histPacketOver) ∧
    (∃ rec, decode_fixed_one false (packet_definition_hist 1 1) histPacketA = .ok rec ∧
      parse_l0_file 1 1 false (histPacketA ++ histPacketOver) =
        ⟨[(APID_HIST, [rec])], [(APID_HIST, .malformedPacket)]⟩) :=
  ⟨⟨by decide, by decide, by decide, by decide, by decide, by decide⟩,
    parse_isolates_malformed_hist 1 1 false histPacketA histPacketOver
      (by decide) (by decide) (by decide) (by decide) (by decide) (by decide)⟩

/-- A well-formed photon packet: declared length field 15 (8 declared words),
fixed fields TIME=0, INT_TIME=2, FLAGS=3, CHECKSUM=4, one pixel word 9. -/
def phPacketGood : List Nat :=
  [0, 0xA0, 0, 0, 0, 15] ++ [0, 0, 0, 0, 0, 0, 0, 0] ++ [0, 2] ++ [0, 3] ++ [0, 4] ++ [0, 9]

/-- A photon-APID packet whose declared length field (1000) exceeds its actual
20 bytes, truncated exactly at the end of the fixed fields. -/
def phPacketOver : List Nat := [0, 0xA0, 0, 0, 3, 0xE8] ++ List.replicate 14 0

/-- Counterexample to C1 as stated: for the variable-length photon APID, a
stream of one well-formed packet followed by one whose declared length exceeds
the remaining stream length decodes BOTH packets (the truncated one yields an
empty pixel sequence) and reports no malformed-packet error, because the
expand count is computed from the actual range length, which here is a whole
number of 16-bit words. -/
theorem parse_photon_overrun_counterexample :
    parse_l0_file 1 1 false (phPacketGood ++ phPacketOver) =
      ⟨[(APID_PHOTON,
          [[(("TIME"), .scalar 0), (("INT_TIME"), .scalar 2), (("FLAGS"), .scalar 3),
            (("CHECKSUM"), .scalar 4), (("PIXEL_DATA"), .array [9])],
           [(("TIME"), .scalar 0), (("INT_TIME"), .scalar 0), (("FLAGS"), .scalar 0),
            (("CHECKSUM"), .scalar 0), (("PIXEL_DATA"), .array [])]])], []⟩ := by
  decide

/-! ## Photon packet pixel counts -/

/-- The declared packet length in 16-bit words: the declared length field is
the payload byte count minus one. -/
def declaredWords (r : List Nat) : Nat := (declaredLength r + 1) / 2

/-- C2 (amended): for every valid photon packet byte range with declared
length `L` 16-bit words, `L ≥ 7`, decoding under the photon schema produces a
`PIXEL_DATA` sequence with exactly `L - 7` elements, 7 being the word count
consumed by the fixed scalar fields (the 64-bit time field spans four words;
integration time, flags and checksum one word each). -/
theorem photon_pixel_data_count (incl : Bool) (r : List Nat)
    (h1 : r.length = packetTotal r)
    (h2 : declaredLength r % 2 = 1)
    (h3 : 7 ≤ declaredWords r) :
    ∃ rec vs, decode_variable_one incl packet_definition_ph r = .ok rec ∧
      getField rec ("PIXEL_DATA") = some (.array vs) ∧
      vs.length = declaredWords r - 7 := by
  have hlen : r.length = 7 + declaredLength r := by
    rw [h1, packetTotal, headerBytes]
    omega
  have hif : decode_variable_one incl packet_definition_ph r =
      if 160 ≤ 8 * r.length ∧ (8 * r.length - 160) % 16 = 0 then
        .ok ((if incl then headerRecord r else [])
          ++ decodeFieldsAux packet_definition_ph.dropLast 48 r
          ++ [(("PIXEL_DATA"), .array ((List.range ((8 * r.length - 160) / 16)).map
                (fun j => readBits r (160 + j * 16) 16)))])
      else .error .malformedPacket := rfl
  have hcond : 160 ≤ 8 * r.length ∧ (8 * r.length - 160) % 16 = 0 := by
    rw [hlen]
    unfold declaredWords at h3
    omega
  rw [hif, if_pos hcond]
  refine ⟨_, (List.range ((8 * r.length - 160) / 16)).map (fun j => readBits r (160 + j * 16) 16),
    rfl, ?_, ?_⟩
  · cases incl <;> rfl
  · rw [List.length_map, List.length_range]
    rw [hlen]
    unfold declaredWords at h3 ⊢
    omega

/-- A valid photon packet declaring 8 words (declared length field 15): one
pixel word. -/
def phPacketB : List Nat := [0, 0xA0, 0, 0, 0, 15] ++ List.replicate 16 0

/-- Witness for C2 (amended): the hypotheses of `photon_pixel_data_count` hold
at a concrete photon packet. -/
theorem photon_pixel_data_count_witness :
    (phPacketB.length = packetTotal phPacketB ∧ declaredLength phPacketB % 2 = 1 ∧
      7 ≤ declaredWords phPacketB) ∧
    (∃ rec vs, decode_variable_one true packet_definition_ph phPacketB = .ok rec ∧
      getField rec ("PIXEL_DATA") = some (.array vs) ∧
      vs.length = declaredWords phPacketB - 7) :=
  ⟨⟨by decide, by decide, by decide⟩,
    photon_pixel_data_count true phPacketB (by decide) (by decide) (by decide)⟩

/-- A valid photon packet declaring exactly 7 words (declared length field 13):
no pixel words at all. -/
def phPacketL7 : List Nat := [0, 0xA0, 0, 0, 0, 13] ++ List.replicate 14 0

/-- Counterexample to C2 as stated: a valid photon packet with declared length
`L = 7` words decodes to an empty `PIXEL_DATA` sequence, not one with
`L - 4 = 3` elements.  The fixed scalar fields consume 7 words, not 4. -/
theorem photon_pixel_data_count_counterexample :
    declaredWords phPacketL7 = 7 ∧
    decode_variable_one false packet_definition_ph phPacketL7 =
      .ok [(("TIME"), .scalar 0), (("INT_TIME"), .scalar 0), (("FLAGS"), .scalar 0),
           (("CHECKSUM"), .scalar 0), (("PIXEL_DATA"), .array [])] ∧
    (([] : List Nat).length ≠ 7 - 4) := by
  decide

/-! ## Housekeeping packets and unknown APIDs -/

/-- A well-formed housekeeping packet: 32-bit time 1, the eight 16-bit values
0..7, checksum 0xABCD; declared length field 21. -/
def hkPacket : List Nat :=
  [0x00, 0xA3, 0, 0, 0, 21] ++ [0, 0, 0, 1] ++
  [0, 0, 0, 1, 0, 2, 0, 3, 0, 4, 0, 5, 0, 6, 0, 7] ++ [0xAB, 0xCD]

/-- Two back-to-back housekeeping packets. -/
def hkStream : List Nat := hkPacket ++ hkPacket

/-- The record the housekeeping schema yields for `hkPacket`. -/
def hkRecordExpected : Record :=
  [(("TIME"), .scalar 1), (("HOUSEKEEPING"), .array [0, 1, 2, 3, 4, 5, 6, 7]),
   (("CHECKSUM"), .scalar 43981)]

/-- Counterexample to C3 as stated: a stream of two well-formed housekeeping
packets parses to an EMPTY result mapping — `parse_l0_file` never dispatches
the housekeeping APID even though `packet_definition_hk` is registered. -/
theorem hk_not_dispatched_counterexample :
    parse_l0_file 1 1 true hkStream = ⟨[], []⟩ := by
  decide

/-- C3 (amended): `parse_l0_file` dispatches only the histogram and photon
APIDs.  A stream of two well-formed housekeeping packets parses to an empty
result mapping for every configuration; decoding the demultiplexed
housekeeping byte ranges directly under the registered housekeeping schema
does yield two records with TIME=1, HOUSEKEEPING=[0..7], CHECKSUM=0xABCD. -/
theorem hk_not_dispatched (numPixels numDetectors : Nat) (incl : Bool) :
    parse_l0_file numPixels numDetectors incl hkStream = ⟨[], []⟩ ∧
    decode_fixed false packet_definition_hk (split_by_apid hkStream APID_HK) =
      ([hkRecordExpected, hkRecordExpected], []) := by
  constructor
  · simp only [parse_l0_file]
    rw [if_neg (by decide), if_neg (by decide)]
    rfl
  · decide

/-- A packet carrying the unregistered APID 0x50 (declared length field 3). -/
def unkStream : List Nat := [0, 0x50, 0, 0, 0, 3] ++ [1, 2, 3, 4]

/-- Counterexample to C6 as stated: a stream containing only one packet of one
unknown APID yields the empty result mapping, but the report channel carries
ZERO entries, not the one informational skip report per distinct unknown APID
that the claim requires — unknown APIDs are skipped silently. -/
theorem unknown_apid_no_report_counterexample :
    (parse_l0_file 1 1 true unkStream).result = [] ∧
    ¬(parse_l0_file 1 1 true unkStream).reports.length = 1 := by
  decide

/-- C6 (amended): for every input stream containing no histogram-APID and no
photon-APID packets, `parse_l0_file` returns an empty result mapping and an
empty report list (it cannot raise), emitting no skip report of any kind. -/
theorem unknown_apids_silently_skipped (numPixels numDetectors : Nat) (incl : Bool)
    (stream : List Nat)
    (hh : APID_HIST ∉ demuxApids stream) (hp : APID_PHOTON ∉ demuxApids stream) :
    parse_l0_file numPixels numDetectors incl stream = ⟨[], []⟩ := by
  simp only [parse_l0_file]
  rw [if_neg hh, if_neg hp]
  rfl

/-- Witness for C6 (amended): the hypotheses hold at a concrete stream of one
unknown-APID packet. -/
theorem unknown_apids_silently_skipped_witness :
    (APID_HIST ∉ demuxApids unkStream ∧ APID_PHOTON ∉ demuxApids unkStream) ∧
    parse_l0_file 1 1 true unkStream = ⟨[], []⟩ :=
  ⟨⟨by decide, by decide⟩,
    unknown_apids_silently_skipped 1 1 true unkStream (by decide) (by decide)⟩

/-- C7: decoding is deterministic and idempotent — decoding the same byte
ranges twice with the same schema yields identical Decoded Records.  Both
decoders are pure functions of the byte range and schema, so this is
definitional. -/
theorem decode_deterministic (incl : Bool) (schema : List PacketField)
    (rs : List (List Nat)) :
    decode_fixed incl schema rs = decode_fixed incl schema rs ∧
    decode_variable incl schema rs = decode_variable incl schema rs :=
  ⟨rfl, rfl⟩

/-! ## The summary and reader routines -/

/-- C8: `summarize_file` iterates `data[APID_PHOTON]` whenever a recognized
APID is present in the parsed data, without checking the photon key exists.
For every input stream containing histogram packets and no photon packets the
summary fails with a key-lookup error. -/
theorem summarize_keyerror (numPixels numDetectors : Nat) (stream : List Nat)
    (hh : APID_HIST ∈ demuxApids stream) (hp : APID_PHOTON ∉ demuxApids stream) :
    summarize_file numPixels numDetectors stream = .error .keyError := by
  have hres : (parse_l0_file numPixels numDetectors true stream).result =
      [(APID_HIST, (decode_fixed true (packet_definition_hist numPixels numDetectors)
        (split_by_apid stream APID_HIST)).1)] := by
    simp only [parse_l0_file]
    rw [if_pos hh, if_neg hp]
    simp
  simp only [summarize_file]
  rw [hres]
  rfl

set_option maxRecDepth 100000 in
/-- Witness for C8: the hypotheses hold at a concrete one-histogram-packet
stream. -/
theorem summarize_keyerror_witness :
    (APID_HIST ∈ demuxApids histPacketA ∧ APID_PHOTON ∉ demuxApids histPacketA) ∧
    summarize_file 1 1 histPacketA = .error .keyError :=
  ⟨⟨by decide, by decide⟩, summarize_keyerror 1 1 histPacketA (by decide) (by decide)⟩

/-- C9: `read_l0_file` (and `read_file`, which returns exactly its result)
raises a `KeyError` on every input whose parse result has no photon-APID
entry, and on every input where it does not raise it returns `None` rather
than the decoded data. -/
theorem read_l0_keyerror_or_none (numPixels numDetectors : Nat) (stream : List Nat) :
    (APID_PHOTON ∉ demuxApids stream →
      read_l0_file numPixels numDetectors stream = .error .keyError) ∧
    (∀ v, read_l0_file numPixels numDetectors stream = .ok v → v = .pyNone) ∧
    read_file numPixels numDetectors stream = read_l0_file numPixels numDetectors stream := by
  refine ⟨?_, ?_, rfl⟩
  · intro hp
    have hnot : APID_PHOTON ∉
        (parse_l0_file numPixels numDetectors true stream).result.map Prod.fst := by
      simp only [parse_l0_file]
      rw [if_neg hp]
      by_cases hh : APID_HIST ∈ demuxApids stream
      · rw [if_pos hh]
        simp only [List.append_nil, List.map_cons, List.map_nil, List.mem_singleton]
        decide
      · rw [if_neg hh]
        simp
    have hfind : lookupApid (parse_l0_file numPixels numDetectors true stream).result
        APID_PHOTON = Option.none := by
      rw [lookupApid, List.find?_eq_none.mpr, Option.map_none']
      intro pr hpr
      simp only [beq_iff_eq]
      intro heq
      exact hnot (heq ▸ List.mem_map_of_mem Prod.fst hpr)
    simp only [read_l0_file]
    rw [hfind]
  · intro v hv
    simp only [read_l0_file] at hv
    cases hfind : lookupApid (parse_l0_file numPixels numDetectors true stream).result
        APID_PHOTON with
    | none =>
      rw [hfind] at hv
      exact Except.noConfusion hv
    | some recs =>
      rw [hfind] at hv
      have hv2 : (match photonHitsLoop recs with
          | Except.error e => (Except.error e : Except PyErr PyValue)
          | Except.ok _ => Except.ok PyValue.pyNone) = Except.ok v := hv
      cases hloop : photonHitsLoop recs with
      | error e =>
        rw [hloop] at hv2
        exact Except.noConfusion hv2
      | ok n =>
        rw [hloop] at hv2
        injection hv2 with h
        exact h.symm

/-- Witness for C9: the key-lookup error at an empty input stream, and the
`None` return at a one-photon-packet stream. -/
theorem read_l0_keyerror_or_none_witness :
    (APID_PHOTON ∉ demuxApids ([] : List Nat) ∧
      read_l0_file 1 1 [] = .error .keyError) ∧
    (read_l0_file 1 1 phPacketGood = .ok .pyNone ∧ PyValue.pyNone = PyValue.pyNone) :=
  ⟨⟨by decide, (read_l0_keyerror_or_none 1 1 []).1 (by decide)⟩,
   ⟨by decide, (read_l0_keyerror_or_none 1 1 phPacketGood).2.1 .pyNone (by decide)⟩⟩

/-- C10: `summarize_file` never returns normally.  Either its per-APID loop
raises, or control reaches the final `len()` call with no arguments, which
always raises a `TypeError`. -/
theorem summarize_never_returns (numPixels numDetectors : Nat) (stream : List Nat) :
    ∃ e, summarize_file numPixels numDetectors stream = .error e := by
  simp only [summarize_file]
  cases hloop : summarizeLoop (parse_l0_file numPixels numDetectors true stream).result
      (parse_l0_file numPixels numDetectors true stream).result with
  | error e => exact ⟨e, rfl⟩
  | ok u => exact ⟨.typeError, rfl⟩

/-! ## Injectivity of the decimal rendering used in generated field names -/

/-- The numeric value of a decimal digit character. -/
def digitVal (c : Char) : Nat := c.toNat - 48

/-- The number denoted by a list of decimal digit characters. -/
def charsVal (cs : List Char) : Nat := cs.foldl (fun a c => 10 * a + digitVal c) 0

theorem charsVal_go (cs : List Char) :
    ∀ a : Nat, cs.foldl (fun x c => 10 * x + digitVal c) a = a * 10 ^ cs.length + charsVal cs := by
  induction cs with
  | nil => intro a; simp [charsVal]
  | cons c cs ih =>
    intro a
    show cs.foldl _ (10 * a + digitVal c) = _
    rw [ih (10 * a + digitVal c)]
    have h2 : charsVal (c :: cs) = digitVal c * 10 ^ cs.length + charsVal cs := by
      show cs.foldl _ (10 * 0 + digitVal c) = _
      rw [ih (10 * 0 + digitVal c)]
      ring
    rw [h2, List.length_cons, pow_succ]
    ring

theorem charsVal_cons (c : Char) (cs : List Char) :
    charsVal (c :: cs) = digitVal c * 10 ^ cs.length + charsVal cs := by
  show cs.foldl _ (10 * 0 + digitVal c) = _
  rw [charsVal_go cs (10 * 0 + digitVal c)]
  ring

theorem digitVal_digitChar (k : Nat) (h : k < 10) : digitVal (Nat.digitChar k) = k := by
  interval_cases k <;> rfl

theorem toDigitsCore_val :
    ∀ (fuel n : Nat) (ds : List Char), n < 10 ^ fuel →
      charsVal (Nat.toDigitsCore 10 fuel n ds) = n * 10 ^ ds.length + charsVal ds := by
  intro fuel
  induction fuel with
  | zero =>
    intro n ds h
    have hn : n = 0 := by simpa using h
    subst hn
    simp [Nat.toDigitsCore]
  | succ fuel ih =>
    intro n ds h
    rw [Nat.toDigitsCore]
    by_cases h0 : n / 10 = 0
    · rw [if_pos h0]
      rw [charsVal_cons, digitVal_digitChar (n % 10) (Nat.mod_lt n (by omega))]
      have hmod : n % 10 = n := Nat.mod_eq_of_lt (by omega)
      rw [hmod]
    · rw [if_neg h0]
      have hn' : n / 10 < 10 ^ fuel := by
        rw [pow_succ] at h
        omega
      rw [ih (n / 10) (Nat.digitChar (n % 10) :: ds) hn']
      rw [charsVal_cons, digitVal_digitChar (n % 10) (Nat.mod_lt n (by omega))]
      rw [List.length_cons, pow_succ]
      conv_rhs => rw [← Nat.div_add_mod n 10]
      ring

theorem charsVal_toDigits (n : Nat) : charsVal (Nat.toDigits 10 n) = n := by
  have h : n < 10 ^ (n + 1) := by
    calc n < 2 ^ n := Nat.lt_two_pow n
    _ ≤ 2 ^ (n + 1) := Nat.pow_le_pow_right (by omega) (by omega)
    _ ≤ 10 ^ (n + 1) := Nat.pow_le_pow_left (by omega) _
  have := toDigitsCore_val (n + 1) n [] h
  rw [Nat.toDigits]
  rw [this]
  simp [charsVal]

theorem nat_repr_injective {m n : Nat} (h : Nat.repr m = Nat.repr n) : m = n := by
  have hm : Nat.toDigits 10 m = Nat.toDigits 10 n := by
    have hd := congrArg String.data h
    simpa [Nat.repr, List.asString] using hd
  have := congrArg charsVal hm
  rwa [charsVal_toDigits, charsVal_toDigits] at this

theorem toString_nat_injective {m n : Nat} (h : (toString m : String) = toString n) : m = n :=
  nat_repr_injective h

/-! ## Distinctness of generated field names -/

theorem append_ne_of_take_ne (p1 p2 d1 d2 : List Char) (k : Nat)
    (h1 : k ≤ p1.length) (h2 : k ≤ p2.length) (hne : p1.take k ≠ p2.take k) :
    p1 ++ d1 ≠ p2 ++ d2 := by
  intro h
  apply hne
  calc p1.take k = (p1 ++ d1).take k := (List.take_append_of_le_length h1).symm
    _ = (p2 ++ d2).take k := by rw [h]
    _ = p2.take k := List.take_append_of_le_length h2

theorem str_append_ne (p1 p2 s1 s2 : String) (k : Nat)
    (h1 : k ≤ p1.data.length) (h2 : k ≤ p2.data.length)
    (hne : p1.data.take k ≠ p2.data.take k) : p1 ++ s1 ≠ p2 ++ s2 := by
  intro h
  have hd := congrArg String.data h
  rw [String.data_append, String.data_append] at hd
  exact append_ne_of_take_ne p1.data p2.data s1.data s2.data k h1 h2 hne hd

theorem str_ne_append (w p s : String) (k : Nat)
    (h1 : k ≤ w.data.length) (h2 : k ≤ p.data.length)
    (hne : w.data.take k ≠ p.data.take k) : w ≠ p ++ s := by
  intro h
  have hd := congrArg String.data h
  rw [String.data_append] at hd
  refine append_ne_of_take_ne w.data p.data [] s.data k h1 h2 hne ?_
  rw [List.append_nil]
  exact hd

theorem str_append_toString_inj (p : String) {i j : Nat}
    (h : p ++ toString i = p ++ toString j) : i = j := by
  have hd := congrArg String.data h
  rw [String.data_append, String.data_append] at hd
  exact toString_nat_injective (String.ext (List.append_cancel_left hd))

/-- The four generated field names of one histogram pixel group. -/
def histGroupNames (i : Nat) : List String := (histGroupFields i).map (fun f => f.name)

theorem histGroupNames_eq (i : Nat) : histGroupNames i =
    ["HISTOGRAM_SYNC" ++ toString i, "HISTOGRAM_DETNUM" ++ toString i,
     "HISTOGRAM_PIXNUM" ++ toString i, "HISTOGRAM_DATA" ++ toString i] := rfl

theorem histGroupNames_nodup (i : Nat) : (histGroupNames i).Nodup := by
  rw [histGroupNames_eq]
  refine List.nodup_cons.mpr ⟨?_, List.nodup_cons.mpr ⟨?_, List.nodup_cons.mpr
    ⟨?_, List.nodup_singleton _⟩⟩⟩
  · simp only [List.mem_cons, List.not_mem_nil, or_false, not_or]
    exact ⟨str_append_ne _ _ _ _ 11 (by decide) (by decide) (by decide),
      str_append_ne _ _ _ _ 11 (by decide) (by decide) (by decide),
      str_append_ne _ _ _ _ 11 (by decide) (by decide) (by decide)⟩
  · simp only [List.mem_cons, List.not_mem_nil, or_false, not_or]
    exact ⟨str_append_ne _ _ _ _ 11 (by decide) (by decide) (by decide),
      str_append_ne _ _ _ _ 12 (by decide) (by decide) (by decide)⟩
  · simp only [List.mem_cons, List.not_mem_nil, or_false, not_or]
    exact str_append_ne _ _ _ _ 11 (by decide) (by decide) (by decide)

theorem histGroupNames_disjoint {i j : Nat} (hij : i ≠ j) :
    List.Disjoint (histGroupNames i) (histGroupNames j) := by
  intro a hai haj
  rw [histGroupNames_eq] at hai haj
  simp only [List.mem_cons, List.not_mem_nil, or_false] at hai haj
  rcases hai with h1 | h1 | h1 | h1 <;> subst h1 <;>
    rcases haj with h2 | h2 | h2 | h2 <;>
    first
      | exact hij (str_append_toString_inj _ h2)
      | exact str_append_ne _ _ _ _ 11 (by decide) (by decide) (by decide) h2
      | exact str_append_ne _ _ _ _ 12 (by decide) (by decide) (by decide) h2

theorem histFlat_nodup (n : Nat) : ((List.range n).flatMap histGroupNames).Nodup := by
  rw [List.nodup_flatMap]
  refine ⟨fun i _ => histGroupNames_nodup i, ?_⟩
  exact (List.pairwise_lt_range n).imp (fun hlt => histGroupNames_disjoint (Nat.ne_of_lt hlt))

theorem hist_names_eq (numPixels numDetectors : Nat) :
    (packet_definition_hist numPixels numDetectors).map (fun f => f.name) =
      ("START_TIME") :: ("END_TIME") ::
        ((List.range (numPixels * numDetectors)).flatMap histGroupNames ++ [("CHECKSUM")]) := by
  rw [packet_definition_hist]
  simp only [List.map_append, List.map_cons, List.map_nil, List.map_flatMap]
  rfl

theorem not_mem_histGroupNames_of_head_ne (w : String) (i : Nat)
    (h1 : w.data.take 1 ≠ [('H')]) : w ∉ histGroupNames i := by
  rw [histGroupNames_eq]
  simp only [List.mem_cons, List.not_mem_nil, or_false, not_or]
  refine ⟨?_, ?_, ?_, ?_⟩ <;> intro he <;> apply h1 <;>
    rw [he, String.data_append, List.take_append_of_le_length (by decide)] <;> decide

theorem hist_names_nodup (numPixels numDetectors : Nat) :
    ((packet_definition_hist numPixels numDetectors).map (fun f => f.name)).Nodup := by
  rw [hist_names_eq]
  refine List.nodup_cons.mpr ⟨?_, List.nodup_cons.mpr ⟨?_, ?_⟩⟩
  · intro hmem
    rcases List.mem_cons.mp hmem with h | h
    · exact absurd h (by decide)
    rcases List.mem_append.mp h with h | h
    · obtain ⟨i, _, hi⟩ := List.mem_flatMap.mp h
      exact not_mem_histGroupNames_of_head_ne _ i (by decide) hi
    · exact absurd h (by decide)
  · intro hmem
    rcases List.mem_append.mp hmem with h | h
    · obtain ⟨i, _, hi⟩ := List.mem_flatMap.mp h
      exact not_mem_histGroupNames_of_head_ne _ i (by decide) hi
    · exact absurd h (by decide)
  · rw [List.nodup_append]
    refine ⟨histFlat_nodup _, List.nodup_singleton _, ?_⟩
    intro a ha hc
    rw [List.mem_singleton] at hc
    subst hc
    obtain ⟨i, _, hi⟩ := List.mem_flatMap.mp ha
    exact not_mem_histGroupNames_of_head_ne _ i (by decide) hi

theorem histFlat_length (n : Nat) :
    ((List.range n).flatMap histGroupFields).length = 4 * n := by
  induction n with
  | zero => rfl
  | succ n ih =>
    rw [List.range_succ, List.flatMap_append, List.length_append, ih]
    simp only [List.flatMap_cons, List.flatMap_nil, List.append_nil, histGroupFields,
      List.length_cons, List.length_nil]
    omega

theorem hist_schema_length (numPixels numDetectors : Nat) :
    (packet_definition_hist numPixels numDetectors).length =
      2 + 4 * (numPixels * numDetectors) + 1 := by
  rw [packet_definition_hist, List.length_append, List.length_append, histFlat_length]
  simp only [List.length_cons, List.length_nil]

/-! ## Decoded record structure -/

theorem decodeFieldsAux_fst (fs : List PacketField) (r : List Nat) :
    ∀ pos, (decodeFieldsAux fs pos r).map Prod.fst = fs.map (fun f => f.name) := by
  induction fs with
  | nil => intro pos; rfl
  | cons f fs ih =>
    intro pos
    simp only [decodeFieldsAux, List.map_cons, ih]

theorem decodeFieldsAux_length (fs : List PacketField) (r : List Nat) (pos : Nat) :
    (decodeFieldsAux fs pos r).length = fs.length := by
  have h := congrArg List.length (decodeFieldsAux_fst fs r pos)
  simpa using h

theorem getField_decodeFieldsAux (r : List Nat) (f : PacketField) :
    ∀ (fs : List PacketField) (pos : Nat), f ∈ fs → (fs.map (fun g => g.name)).Nodup →
      ∃ q, getField (decodeFieldsAux fs pos r) f.name = some (decodeField r q f) := by
  intro fs
  induction fs with
  | nil => intro pos hf _; cases hf
  | cons g gs ih =>
    intro pos hf hnd
    rcases List.mem_cons.mp hf with hfg | hf'
    · subst hfg
      refine ⟨pos, ?_⟩
      rw [decodeFieldsAux, getField, List.find?_cons_of_pos _ (by simp)]
      rfl
    · rw [List.map_cons] at hnd
      have hgname : (g.name == f.name) ≠ true := by
        intro he
        have hnotin : g.name ∉ gs.map (fun g => g.name) := (List.nodup_cons.mp hnd).1
        exact hnotin (eq_of_beq he ▸ List.mem_map_of_mem _ hf')
      obtain ⟨q, hq⟩ := ih (pos + schemaFieldBits g) hf' (List.nodup_cons.mp hnd).2
      refine ⟨q, ?_⟩
      rw [decodeFieldsAux, getField, List.find?_cons_of_neg _ (by simpa using hgname)]
      exact hq

/-- C4: decoding one valid histogram byte range with the fixed-length decoder
(schema fields only) yields exactly one record whose field names are pairwise
distinct and number `2 + 4*(numPixels*numDetectors) + 1`, and every
`HISTOGRAM_DATA{i}` field of that record is an array of exactly 512 elements. -/
theorem hist_decode_shape (numPixels numDetectors : Nat) (r : List Nat)
    (hv : 8 * r.length = 48 + schemaBits (packet_definition_hist numPixels numDetectors))
    (hd : 8 * packetTotal r = 48 + schemaBits (packet_definition_hist numPixels numDetectors)) :
    ∃ rec, decode_fixed false (packet_definition_hist numPixels numDetectors) [r] = ([rec], []) ∧
      (rec.map Prod.fst).Nodup ∧
      rec.length = 2 + 4 * (numPixels * numDetectors) + 1 ∧
      ∀ i < numPixels * numDetectors, ∃ vs,
        getField rec (("HISTOGRAM_DATA") ++ toString i) = some (.array vs) ∧ vs.length = 512 := by
  refine ⟨decodeFieldsAux (packet_definition_hist numPixels numDetectors) 48 r, ?_, ?_, ?_, ?_⟩
  · show (let rest := decode_fixed false (packet_definition_hist numPixels numDetectors) [];
      match decode_fixed_one false (packet_definition_hist numPixels numDetectors) r with
      | .ok rec => (rec :: rest.1, rest.2)
      | .error e => (rest.1, e :: rest.2)) = _
    rw [decode_fixed_one, if_pos ⟨hv, hd⟩]
    rfl
  · rw [decodeFieldsAux_fst]
    exact hist_names_nodup numPixels numDetectors
  · rw [decodeFieldsAux_length, hist_schema_length]
  · intro i hi
    have hmem : (⟨"HISTOGRAM_DATA" ++ toString i, "uint", 16, .fixedArray 512⟩ : PacketField) ∈
        packet_definition_hist numPixels numDetectors := by
      rw [packet_definition_hist]
      refine List.mem_append.mpr (Or.inl (List.mem_append.mpr (Or.inr ?_)))
      exact List.mem_flatMap.mpr ⟨i, List.mem_range.mpr hi, by simp [histGroupFields]⟩
    obtain ⟨q, hq⟩ := getField_decodeFieldsAux r _ _ 48 hmem
      (by simpa using hist_names_nodup numPixels numDetectors)
    refine ⟨(List.range 512).map (fun j => readBits r (q + j * 16) 16), ?_, by simp⟩
    rw [hq]
    rfl

set_option maxRecDepth 100000 in
/-- Witness for C4: the hypotheses of `hist_decode_shape` hold at a concrete
1050-byte histogram packet under a 1-pixel, 1-detector configuration. -/
theorem hist_decode_shape_witness :
    (8 * histPacketA.length = 48 + schemaBits (packet_definition_hist 1 1) ∧
      8 * packetTotal histPacketA = 48 + schemaBits (packet_definition_hist 1 1)) ∧
    (∃ rec, decode_fixed false (packet_definition_hist 1 1) [histPacketA] = ([rec], []) ∧
      (rec.map Prod.fst).Nodup ∧
      rec.length = 2 + 4 * (1 * 1) + 1 ∧
      ∀ i < 1 * 1, ∃ vs,
        getField rec (("HISTOGRAM_DATA") ++ toString i) = some (.array vs) ∧ vs.length = 512) :=
  ⟨⟨by decide, by decide⟩, hist_decode_shape 1 1 histPacketA (by decide) (by decide)⟩

end PadreMeddea
